import Mathlib

/-!
Verification of the distribution-fitting and model-comparison core of the
macroeco repository: a shallow embedding of `predict_sad.py` and
`compare.py`.

Modelling conventions:
* machine floats are modelled as exact rationals (`ℚ`);
* calls into external numerical routines (SciPy quadrature, `brentq`
  root-finding, `scipy.stats` PMFs, `scipy.stats.chisqprob`, `np.exp`) are
  modelled as oracle parameters, so every theorem quantifies over all
  possible numerical outcomes of those routines;
* Python runtime failures (failed `assert`, `raise`, reading a never
  assigned local variable) are modelled with `Except PyErr`.
-/

/-- Python runtime failure kinds relevant to the embedded functions. -/
inductive PyErr where
  | assertionError
  | rootError
  | unboundLocal
  deriving DecidableEq

/-- The probability floor `1e-120` returned for degenerate parameters
(`predict_sad.py` line 224), as an exact rational. -/
def floor_prob : ℚ := 1 / 10 ^ 120

/-- Shallow embedding of `plognorm_pmf` (`predict_sad.py` lines 182-239).
`quadNorm mean var n` is an oracle for the value `norm * integral` computed
by adaptive quadrature in the branch `n ≤ 170`, and `approxLarge mean var n`
is an oracle for the closed-form asymptotic value used when `n > 170`; both
are transcendental and therefore left abstract.  The type and length
asserts become `PyErr.assertionError`; the degenerate-parameter branch
(`var ≤ 0 or mean ≤ 0`) is translated exactly. -/
def plognorm_pmf (quadNorm approxLarge : ℚ → ℚ → ℕ → ℚ)
    (mean var : ℚ) (abundances : List ℕ) (pmf_ret : Bool) :
    Except PyErr (List ℚ) :=
  if abundances.length < 1 then Except.error PyErr.assertionError else
  let n_array : List ℕ :=
    if pmf_ret = true then List.range' 1 abundances.sum else abundances
  if var ≤ 0 ∨ mean ≤ 0 then
    Except.ok (List.replicate n_array.length floor_prob)
  else
    Except.ok (n_array.map (fun n =>
      if n ≤ 170 then quadNorm mean var n else approxLarge mean var n))

/-- Shallow embedding of `trun_plognorm_pmf` (`predict_sad.py` lines
242-273): the untruncated PMF divided elementwise by `1 - pmf0`, where
`pmf0` is the single-point untruncated call at abundance 0 (NumPy
broadcasting of the length-1 array `pmf0` is the division by its unique
element). -/
def trun_plognorm_pmf (quadNorm approxLarge : ℚ → ℚ → ℕ → ℚ)
    (mean var : ℚ) (abundances : List ℕ) (pmf_ret : Bool) :
    Except PyErr (List ℚ) :=
  match plognorm_pmf quadNorm approxLarge mean var abundances pmf_ret with
  | Except.error e => Except.error e
  | Except.ok untr_pmf =>
    match plognorm_pmf quadNorm approxLarge mean var [0] false with
    | Except.error e => Except.error e
    | Except.ok pmf0 =>
      Except.ok (untr_pmf.map (fun p => p / (1 - pmf0.headI)))

/-- The unique element of the length-1 array returned by the single-point
call `plognorm_pmf(mean, var, [0], pmf_ret=False)`. -/
def plognorm_zero_point (quadNorm approxLarge : ℚ → ℚ → ℕ → ℚ)
    (mean var : ℚ) : ℚ :=
  if var ≤ 0 ∨ mean ≤ 0 then floor_prob else quadNorm mean var 0

/-- Shallow embedding of `lgsr_pmf` (`predict_sad.py` lines 65-110).
`x_root` is an oracle for the root of the log-series constraint equation
returned by `scipy.optimize.brentq` on `(-2, 1 - 1e-10)`, and
`logser k x` is an oracle for `scipy.stats.logser.pmf(k, x)`; the asserts
on lines 90-96 are translated in source order. -/
def lgsr_pmf (x_root : ℚ) (logser : ℚ → ℚ → ℚ)
    (S N : ℤ) (abundances : List ℤ) (pmf_ret : Bool) :
    Except PyErr (List ℚ) :=
  if ¬ S < N then Except.error PyErr.assertionError else
  if ¬ S > 1 then Except.error PyErr.assertionError else
  if ¬ N > 0 then Except.error PyErr.assertionError else
  if pmf_ret = false ∧ (abundances.length : ℤ) ≠ S then
    Except.error PyErr.assertionError else
  if pmf_ret = false ∧ abundances.sum ≠ N then
    Except.error PyErr.assertionError else
  let x := x_root
  let k : List ℚ :=
    if pmf_ret = true then (List.range' 1 N.toNat).map (fun i => (i : ℚ))
    else abundances.map (fun a => (a : ℚ))
  Except.ok (k.map (fun kv => logser kv x))

/-- Shallow embedding of `neg_binom_pmf` (`predict_sad.py` lines 113-151).
`nbinom n k p` is an oracle for `scipy.stats.nbinom.pmf(n, k, p)`; the
mean `mu = N/S` and success probability `p = k/(mu+k)` are exact rational
arithmetic, translated directly; the asserts on lines 135-141 are
translated in source order. -/
def neg_binom_pmf (nbinom : ℚ → ℚ → ℚ → ℚ)
    (S N : ℤ) (k : ℚ) (abundances : List ℤ) (pmf_ret : Bool) :
    Except PyErr (List ℚ) :=
  if ¬ S < N then Except.error PyErr.assertionError else
  if ¬ S > 1 then Except.error PyErr.assertionError else
  if ¬ N > 0 then Except.error PyErr.assertionError else
  if pmf_ret = false ∧ (abundances.length : ℤ) ≠ S then
    Except.error PyErr.assertionError else
  if pmf_ret = false ∧ abundances.sum ≠ N then
    Except.error PyErr.assertionError else
  let mu : ℚ := (N : ℚ) / (S : ℚ)
  let p : ℚ := k / (mu + k)
  let n : List ℚ :=
    if pmf_ret = true then (List.range' 1 N.toNat).map (fun i => (i : ℚ))
    else abundances.map (fun a => (a : ℚ))
  Except.ok (n.map (fun nv => nbinom nv k p))

/-- Shallow embedding of `mete_lgsr_pmf` (`predict_sad.py` lines 447-504).
`x_root` is an oracle for the `brentq` root of the METE constraint
equation (7.27); the normalization `norm = sum(x^n/n)` over `n = 1..N` and
the final PMF `x^k/(k*norm)` are exact rational arithmetic, translated
directly; the asserts on lines 481-487 are translated in source order. -/
def mete_lgsr_pmf (x_root : ℚ)
    (S N : ℤ) (abundances : List ℤ) (pmf_ret : Bool) :
    Except PyErr (List ℚ) :=
  if ¬ S < N then Except.error PyErr.assertionError else
  if ¬ S > 1 then Except.error PyErr.assertionError else
  if ¬ N > 0 then Except.error PyErr.assertionError else
  if pmf_ret = false ∧ (abundances.length : ℤ) ≠ S then
    Except.error PyErr.assertionError else
  if pmf_ret = false ∧ abundances.sum ≠ N then
    Except.error PyErr.assertionError else
  let x := x_root
  let n : List ℕ := List.range' 1 N.toNat
  let norm : ℚ := (n.map (fun (i : ℕ) => x ^ i / (i : ℚ))).sum
  let nvals : List ℤ :=
    if pmf_ret = true then n.map (fun i => (i : ℤ)) else abundances
  Except.ok (nvals.map (fun (nv : ℤ) => (x ^ nv / (nv : ℚ)) / norm))

/-- `np.min` of an array, with the convention that the empty array (on
which NumPy raises) gives 0; the theorems using it assume nonemptiness. -/
def npMin : List ℚ → ℚ
  | [] => 0
  | x :: xs => xs.foldl min x

/-- Shallow embedding of `aic_weights` (`compare.py` lines 292-318).
`expO` is an oracle for `np.exp` applied elementwise; the subtraction of
the minimum, the `-delta/2` arguments, and the normalization are exact
rational arithmetic translated directly. -/
def aic_weights (expO : ℚ → ℚ) (aic_values : List ℚ) : List ℚ :=
  let minimum := npMin aic_values
  let delta := aic_values.map (fun x => x - minimum)
  let values := delta.map (fun d => expO (-d / 2))
  values.map (fun x => x / values.sum)

/-- The list of `(statistic, p-value)` pairs built by
`likelihood_ratio_test` once the length assert has passed (`compare.py`
lines 374-376): `test_stat = 2*nll_null - 2*nll_alt` elementwise, then
`(ts, chisqprob(ts, df))` for the zipped pairs. -/
def lrt_pairs (chisqprob : ℚ → ℚ → ℚ)
    (nll_null nll_alt df_list : List ℚ) : List (ℚ × ℚ) :=
  let test_stat := List.zipWith (fun a b => 2 * a - 2 * b) nll_null nll_alt
  (test_stat.zip df_list).map (fun p => (p.1, chisqprob p.1 p.2))

/-- Shallow embedding of `likelihood_ratio_test` (`compare.py` lines
343-376).  `chisqprob s d` is an oracle for `scipy.stats.chisqprob(s, d)`,
the chi-squared survival function; the equal-length assert is translated
to an assertion error. -/
def likelihood_ratio_test (chisqprob : ℚ → ℚ → ℚ)
    (nll_null nll_alt df_list : List ℚ) : Except PyErr (List (ℚ × ℚ)) :=
  if nll_null.length = nll_alt.length ∧ nll_null.length = df_list.length ∧
      nll_alt.length = df_list.length then
    Except.ok (lrt_pairs chisqprob nll_null nll_alt df_list)
  else Except.error PyErr.assertionError

/-- Python truthiness of a string: nonempty strings are truthy. -/
def pyTruthy (s : String) : Bool := !(s == "")

/-- The validity-assert condition of `nll` (`predict_sad.py` lines
672-674).  Python parses it as `(distribution is 'mete') or 'mete_approx'
or 'neg_binom' or 'lgsr' or 'trun_plognorm' or 'plognorm'`; `isMete`
models the result of the identity test `distribution is 'mete'`, and each
remaining operand contributes the truthiness of a nonempty string
literal. -/
def nll_assert_cond (isMete : Bool) : Bool :=
  isMete || pyTruthy "mete_approx" || pyTruthy "neg_binom" ||
    pyTruthy "lgsr" || pyTruthy "trun_plognorm" || pyTruthy "plognorm"

/-- Oracles for the six per-distribution PMF computations dispatched by
`nll`, and for `np.log`. -/
structure NllOracles where
  pmf_mete : List ℚ
  pmf_mete_approx : List ℚ
  pmf_neg_binom : List ℚ
  pmf_trun_plognorm : List ℚ
  pmf_plognorm : List ℚ
  pmf_lgsr : List ℚ
  logO : ℚ → ℚ

/-- Shallow embedding of `nll` (`predict_sad.py` lines 647-692): after the
(vacuous) assert, a chain of equality tests against the six supported
names assigns the local `pmf`; if none matches, `pmf` was never assigned
and reading it at line 692 raises an unbound-local error. -/
def nll (O : NllOracles) (isMete : Bool) (distribution : String) :
    Except PyErr ℚ :=
  if nll_assert_cond isMete = false then Except.error PyErr.assertionError
  else
    let pmf : Option (List ℚ) := none
    let pmf := if distribution == "mete" then some O.pmf_mete else pmf
    let pmf := if distribution == "mete_approx" then some O.pmf_mete_approx
      else pmf
    let pmf := if distribution == "neg_binom" then some O.pmf_neg_binom
      else pmf
    let pmf := if distribution == "trun_plognorm" then
      some O.pmf_trun_plognorm else pmf
    let pmf := if distribution == "plognorm" then some O.pmf_plognorm
      else pmf
    let pmf := if distribution == "lgsr" then some O.pmf_lgsr else pmf
    match pmf with
    | some p => Except.ok (-(p.map O.logO).sum)
    | none => Except.error PyErr.unboundLocal

/-- Which root-finding call the solve phase of `mete_lgsr_approx_pmf`
settles on: `direct x` when the initial full-bracket `brentq` returns `x`;
`lower xmax` / `upper xmax` when, after the fallback grid scan located the
maximum at `xmax`, a `brentq` call is issued on `(start, xmax)`
respectively `(xmax, stop)`. -/
inductive RootChoice where
  | direct (x : ℚ)
  | lower (xmax : ℚ)
  | upper (xmax : ℚ)
  deriving DecidableEq

/-- `np.max` of an array, with the convention that the empty array (on
which NumPy raises) gives 0; the scan lists below are never empty. -/
def npMax : List ℚ → ℚ
  | [] => 0
  | x :: xs => xs.foldl max x

/-- `np.linspace(start, stop, num)`: `num` evenly spaced points including
both endpoints. -/
def np_linspace (start stop : ℚ) (num : ℕ) : List ℚ :=
  (List.range num).map
    (fun (i : ℕ) => start + (stop - start) * (i : ℚ) / ((num : ℚ) - 1))

/-- The 1000-point fallback grid of `mete_lgsr_approx_pmf` (line 555):
`np.linspace(start, stop, num=1000)` with `start = 0.3`,
`stop = 1 - 1e-10`. -/
def mete_scan_values : List ℚ := np_linspace (3 / 10) (1 - 1 / 10 ^ 10) 1000

/-- The grid values of the constraint equation (`solns`, lines 556-558);
`eqO` is an oracle for the transcendental equation
`(-ln x)*ln(-1/ln x) - S/N`. -/
def mete_scan_solns (eqO : ℚ → ℚ) : List ℚ := mete_scan_values.map eqO

/-- `ymax = np.max(np.array(solns))` (line 559). -/
def mete_scan_ymax (eqO : ℚ → ℚ) : ℚ := npMax (mete_scan_solns eqO)

/-- `xmax = values[solns.index(ymax)]` (line 560). -/
def mete_scan_xmax (eqO : ℚ → ℚ) : ℚ :=
  mete_scan_values.getD ((mete_scan_solns eqO).indexOf (mete_scan_ymax eqO)) 0

/-- The default value of the `root` selector in the signature of
`mete_lgsr_approx_pmf` (line 507: `root=2`). -/
def mete_root_default : ℤ := 2

/-- Shallow embedding of the root-location phase of `mete_lgsr_approx_pmf`
(`predict_sad.py` lines 552-570).  `brentq0` is `some x` when the initial
full-bracket `brentq` returns the root `x` and `none` when it raises
`ValueError`; in the fallback, the local `x` starts unassigned, is
assigned only under `ymax > 0` with `root = 1` or `root = 2`, a negative
`ymax` raises `RootError`, and reading an unassigned `x` afterwards (line
575) raises an unbound-local error. -/
def mete_lgsr_approx_solve (brentq0 : Option ℚ) (eqO : ℚ → ℚ) (root : ℤ) :
    Except PyErr RootChoice :=
  match brentq0 with
  | some x => Except.ok (RootChoice.direct x)
  | none =>
    let ymax := mete_scan_ymax eqO
    let xmax := mete_scan_xmax eqO
    let x : Option RootChoice :=
      if ymax > 0 then
        if root = 1 then some (RootChoice.lower xmax)
        else if root = 2 then some (RootChoice.upper xmax)
        else none
      else none
    if ymax < 0 then Except.error PyErr.rootError
    else
      match x with
      | some c => Except.ok c
      | none => Except.error PyErr.unboundLocal

/-- `np.unique`: the sorted list of distinct values of the input. -/
def np_unique (l : List ℚ) : List ℚ := l.dedup.insertionSort (fun a b => a ≤ b)

/-- The loop of `empirical_cdf` (`compare.py` lines 239-243): iterate the
sorted unique values in ascending order; `loc` is the number of positions
holding the current value `v` (`np.where(i == emp_data)`), the running
`count` is increased by it, and every position holding `v` is overwritten
with `count / leng`. -/
def ecdf_loop (emp : List ℚ) (leng : ℕ) :
    List ℚ → ℕ → List ℚ → List ℚ
  | [], _, cdf => cdf
  | v :: rest, count, cdf =>
    let loc := (emp.filter (fun e => decide (e = v))).length
    let count2 := count + loc
    let cdf2 := List.zipWith
      (fun e old => if e = v then (count2 : ℚ) / (leng : ℚ) else old) emp cdf
    ecdf_loop emp leng rest count2 cdf2

/-- Shallow embedding of `empirical_cdf` (`compare.py` lines 220-244):
`np.empty` is modelled as a zero-initialized array (every position is
overwritten before being read, since every value occurs in
`np.unique`). -/
def empirical_cdf (emp_data : List ℚ) : List ℚ :=
  ecdf_loop emp_data emp_data.length (np_unique emp_data) 0
    (List.replicate emp_data.length 0)

/-- `np.arange(start, stop, step)`: in exact arithmetic the number of
points is `⌈(stop - start) / step⌉` (NumPy's documented length), the
`i`-th point being `start + i*step`. -/
def np_arange (start stop step : ℚ) : List ℚ :=
  (List.range (Int.toNat ⌈(stop - start) / step⌉)).map
    (fun (i : ℕ) => start + (i : ℚ) * step)

/-- `np.cumsum`: partial sums (without the initial 0 of `scanl`). -/
def np_cumsum (l : List ℚ) : List ℚ := (l.scanl (fun a b => a + b) 0).drop 1

/-- The cutoff loop of `make_rank_abund` (`predict_sad.py` lines 638-643):
for each cumulative cutoff, every position whose quantile point is `≥` the
cutoff is incremented, and the loop breaks as soon as no position
qualifies. -/
def rank_loop (S_points : List ℚ) : List ℚ → List ℚ → List ℚ
  | [], S_abunds => S_abunds
  | cutoff :: rest, S_abunds =>
    let greater_thans := S_points.map (fun p => decide (cutoff ≤ p))
    let S_abunds2 := List.zipWith
      (fun g a => if g then a + 1 else a) greater_thans S_abunds
    if greater_thans.any (fun b => b) = false then S_abunds2
    else rank_loop S_points rest S_abunds2

/-- Shallow embedding of `make_rank_abund` (`predict_sad.py` lines
608-645): quantile points `np.arange(1/(2S), 1 + 1/(2S), 1/S)`, zero
counters, cumulative sums of the 0-prepended pmf, then the cutoff loop. -/
def make_rank_abund (sad_pmf : List ℚ) (S : ℕ) : List ℚ :=
  let S_points := np_arange (1 / (2 * (S : ℚ))) (1 + 1 / (2 * (S : ℚ)))
    (1 / (S : ℚ))
  let S_abunds := List.replicate S_points.length 0
  let sad_pmf_w_zero : List ℚ := 0 :: sad_pmf
  let cum_sad_pmf_w_zero := np_cumsum sad_pmf_w_zero
  rank_loop S_points cum_sad_pmf_w_zero S_abunds

lemma plognorm_pmf_zero_call (quadNorm approxLarge : ℚ → ℚ → ℕ → ℚ)
    (mean var : ℚ) :
    plognorm_pmf quadNorm approxLarge mean var [0] false =
      Except.ok [plognorm_zero_point quadNorm approxLarge mean var] := by
  unfold plognorm_pmf plognorm_zero_point
  by_cases h : var ≤ 0 ∨ mean ≤ 0 <;> simp [h]

/-- Claim C2: for every degenerate-parameter call (`var ≤ 0` or
`mean ≤ 0`) with a nonempty abundance vector, `plognorm_pmf` does not fail
and returns the floor `1e-120` once per requested abundance value
(`abundances.sum` values for `pmf_ret=True`, one per entry otherwise); in
particular `plognorm_pmf(-1, -1, [1,2,3])` returns `[1e-120, 1e-120,
1e-120]`. -/
theorem plognorm_degenerate_floor (quadNorm approxLarge : ℚ → ℚ → ℕ → ℚ)
    (mean var : ℚ) (abundances : List ℕ) (pmf_ret : Bool)
    (hab : abundances ≠ []) (hdeg : var ≤ 0 ∨ mean ≤ 0) :
    plognorm_pmf quadNorm approxLarge mean var abundances pmf_ret =
      Except.ok (List.replicate
        (if pmf_ret = true then abundances.sum else abundances.length)
        floor_prob) ∧
    plognorm_pmf quadNorm approxLarge (-1) (-1) [1, 2, 3] false =
      Except.ok [floor_prob, floor_prob, floor_prob] := by
  constructor
  · unfold plognorm_pmf
    have hlen : ¬ abundances.length < 1 := by
      cases abundances with
      | nil => exact absurd rfl hab
      | cons a l => simp
    simp only [hlen, if_false, hdeg, if_true]
    cases pmf_ret <;> simp
  · unfold plognorm_pmf
    norm_num [List.replicate]

/-- Witness for C2: the hypotheses hold at
`plognorm_pmf(-1, -1, [1,2,3], pmf_ret=False)` with the zero oracles. -/
theorem plognorm_degenerate_floor_witness :
    plognorm_pmf (fun _ _ _ => 0) (fun _ _ _ => 0) (-1) (-1) [1, 2, 3] false =
      Except.ok [floor_prob, floor_prob, floor_prob] :=
  (plognorm_degenerate_floor (fun _ _ _ => 0) (fun _ _ _ => 0) (-1) (-1)
    [1, 2, 3] false (by decide) (Or.inl (by norm_num))).2

/-- Claim C6: for every mean, var, abundance vector and evaluation mode,
`trun_plognorm_pmf` equals the untruncated `plognorm_pmf` divided
elementwise by `1 - p0`, where `p0` is obtained from the single-point
untruncated call `plognorm_pmf(mean, var, [0], pmf_ret=False)`. -/
theorem trun_plognorm_zero_truncation (quadNorm approxLarge : ℚ → ℚ → ℕ → ℚ)
    (mean var : ℚ) (abundances : List ℕ) (pmf_ret : Bool) :
    plognorm_pmf quadNorm approxLarge mean var [0] false =
      Except.ok [plognorm_zero_point quadNorm approxLarge mean var] ∧
    trun_plognorm_pmf quadNorm approxLarge mean var abundances pmf_ret =
      (plognorm_pmf quadNorm approxLarge mean var abundances pmf_ret).map
        (fun untr_pmf => untr_pmf.map
          (fun p => p / (1 - plognorm_zero_point quadNorm approxLarge mean var))) := by
  refine ⟨plognorm_pmf_zero_call quadNorm approxLarge mean var, ?_⟩
  unfold trun_plognorm_pmf
  rw [plognorm_pmf_zero_call]
  cases h : plognorm_pmf quadNorm approxLarge mean var abundances pmf_ret with
  | error e => simp [Except.map]
  | ok untr_pmf => simp [Except.map]

/-- Claim C7: malformed shape arguments (`S ≥ N`, or `S ≤ 1`, or — when an
abundance vector is supplied with `pmf_ret=False` — a length or sum
mismatch) make `lgsr_pmf`, `neg_binom_pmf` and `mete_lgsr_pmf` fail with
an assertion error for every possible outcome of the root-finding / PMF
oracles, i.e. before any root-finding or PMF computation is consulted. -/
theorem sad_pmf_precondition_asserts (S N : ℤ) (abundances : List ℤ)
    (pmf_ret : Bool)
    (h : N ≤ S ∨ S ≤ 1 ∨
      (pmf_ret = false ∧ ((abundances.length : ℤ) ≠ S ∨ abundances.sum ≠ N))) :
    (∀ x_root logser, lgsr_pmf x_root logser S N abundances pmf_ret =
      Except.error PyErr.assertionError) ∧
    (∀ nbinom k, neg_binom_pmf nbinom S N k abundances pmf_ret =
      Except.error PyErr.assertionError) ∧
    (∀ x_root, mete_lgsr_pmf x_root S N abundances pmf_ret =
      Except.error PyErr.assertionError) := by
  refine ⟨fun x_root logser => ?_, fun nbinom k => ?_, fun x_root => ?_⟩ <;>
  · first
    | unfold lgsr_pmf
    | unfold neg_binom_pmf
    | unfold mete_lgsr_pmf
    split_ifs with h1 h2 h3 h4 h5 <;> try rfl
    exfalso
    push_neg at h1 h2 h3 h4 h5
    rcases h with h | h | ⟨hret, h⟩
    · omega
    · omega
    · rcases h with h | h
      · exact h (h4 hret)
      · exact h (h5 hret)

/-- Witness for C7: at `S = 5`, `N = 3` (so `S ≥ N`) all three functions
reject with an assertion error, for the zero oracles. -/
theorem sad_pmf_precondition_asserts_witness :
    lgsr_pmf 0 (fun _ _ => 0) 5 3 [] true = Except.error PyErr.assertionError ∧
    neg_binom_pmf (fun _ _ _ => 0) 5 3 1 [] true =
      Except.error PyErr.assertionError ∧
    mete_lgsr_pmf 0 5 3 [] true = Except.error PyErr.assertionError :=
  ⟨(sad_pmf_precondition_asserts 5 3 [] true (Or.inl (by norm_num))).1 0
      (fun _ _ => 0),
   (sad_pmf_precondition_asserts 5 3 [] true (Or.inl (by norm_num))).2.1
      (fun _ _ _ => 0) 1,
   (sad_pmf_precondition_asserts 5 3 [] true (Or.inl (by norm_num))).2.2 0⟩

lemma sum_map_div (l : List ℚ) (s : ℚ) :
    (l.map (fun x => x / s)).sum = l.sum / s := by
  induction l with
  | nil => simp
  | cons a t ih => simp [ih, add_div]

lemma foldl_min_map_add (c : ℚ) :
    ∀ (xs : List ℚ) (a : ℚ),
      (xs.map (fun x => x + c)).foldl min (a + c) = xs.foldl min a + c := by
  intro xs
  induction xs with
  | nil => intro a; simp
  | cons x t ih => intro a; simpa [← min_add_add_right] using ih (min a x)

lemma npMin_map_add (l : List ℚ) (c : ℚ) (h : l ≠ []) :
    npMin (l.map (fun x => x + c)) = npMin l + c := by
  cases l with
  | nil => exact absurd rfl h
  | cons x t => simpa [npMin] using foldl_min_map_add c t x

/-- Claim C3: `aic_weights` returns one weight per input AIC value; for a
nonempty input (and any positive-valued exponential oracle, as `np.exp`
is) the weights sum to exactly 1, in particular to 1 within `1e-9`; and
adding the same constant to every input leaves the weights unchanged. -/
theorem aic_weights_sum_one_shift_invariant (expO : ℚ → ℚ)
    (aic_values : List ℚ) (hne : aic_values ≠ [])
    (hpos : ∀ q : ℚ, 0 < expO q) :
    (aic_weights expO aic_values).length = aic_values.length ∧
    (aic_weights expO aic_values).sum = 1 ∧
    |(aic_weights expO aic_values).sum - 1| ≤ 1 / 1000000000 ∧
    (∀ c : ℚ, aic_weights expO (aic_values.map (fun x => x + c)) =
      aic_weights expO aic_values) := by
  have hsum1 : (aic_weights expO aic_values).sum = 1 := by
    unfold aic_weights
    have hvpos : 0 < ((aic_values.map
        (fun x => x - npMin aic_values)).map (fun d => expO (-d / 2))).sum := by
      apply List.sum_pos
      · intro a ha
        simp only [List.mem_map] at ha
        obtain ⟨d, _, rfl⟩ := ha
        exact hpos _
      · simp [hne]
    rw [sum_map_div, div_self (ne_of_gt hvpos)]
  refine ⟨by simp [aic_weights], hsum1, by rw [hsum1]; norm_num, fun c => ?_⟩
  have hdelta : (aic_values.map (fun x => x + c)).map
      (fun x => x - npMin (aic_values.map (fun x => x + c))) =
      aic_values.map (fun x => x - npMin aic_values) := by
    rw [npMin_map_add aic_values c hne, List.map_map]
    congr 1
    funext x
    simp only [Function.comp]
    ring
  simp only [aic_weights]
  rw [hdelta]

/-- Witness for C3 at the two-element list `[3, 5]` and the constant
oracle `fun _ => 1` (which is everywhere positive). -/
theorem aic_weights_sum_one_shift_invariant_witness :
    (aic_weights (fun _ => 1) [3, 5]).sum = 1 ∧
    aic_weights (fun _ => 1) ([3, 5].map (fun x => x + 7)) =
      aic_weights (fun _ => 1) [3, 5] :=
  ⟨(aic_weights_sum_one_shift_invariant (fun _ => 1) [3, 5] (by decide)
      (fun q => by norm_num)).2.1,
   (aic_weights_sum_one_shift_invariant (fun _ => 1) [3, 5] (by decide)
      (fun q => by norm_num)).2.2.2 7⟩

/-- Claim C4: for equal-length inputs, `likelihood_ratio_test` returns one
`(statistic, p-value)` pair per entry, with statistic
`2*nll_null - 2*nll_alt` and p-value the chi-squared survival oracle at
that statistic and the given degrees of freedom; the statistic is
nonnegative whenever `nll_null ≥ nll_alt`; and at
`nll_null=50, nll_alt=45, df=1` the statistic is exactly 10. -/
theorem likelihood_ratio_test_spec (chisqprob : ℚ → ℚ → ℚ)
    (nll_null nll_alt df_list : List ℚ)
    (h1 : nll_null.length = nll_alt.length)
    (h2 : nll_null.length = df_list.length) :
    likelihood_ratio_test chisqprob nll_null nll_alt df_list =
      Except.ok (lrt_pairs chisqprob nll_null nll_alt df_list) ∧
    (lrt_pairs chisqprob nll_null nll_alt df_list).length =
      nll_null.length ∧
    (∀ i, (hi : i < nll_null.length) →
      (lrt_pairs chisqprob nll_null nll_alt df_list)[i]? =
        some (2 * nll_null[i] - 2 * nll_alt[i],
          chisqprob (2 * nll_null[i] - 2 * nll_alt[i]) df_list[i])) ∧
    (∀ i, (hi : i < nll_null.length) → nll_alt[i] ≤ nll_null[i] →
      0 ≤ 2 * nll_null[i] - 2 * nll_alt[i]) ∧
    likelihood_ratio_test chisqprob [50] [45] [1] =
      Except.ok [(10, chisqprob 10 1)] := by
  have hlen : (lrt_pairs chisqprob nll_null nll_alt df_list).length =
      nll_null.length := by
    simp [lrt_pairs, ← h1, ← h2]
  refine ⟨by simp [likelihood_ratio_test, h1, h2, h1 ▸ h2], hlen,
    fun i hi => ?_, fun i hi hle => by linarith, ?_⟩
  · rw [List.getElem?_eq_getElem (hlen ▸ hi)]
    simp only [lrt_pairs, List.getElem_map, List.getElem_zip,
      List.getElem_zipWith]
  · have : lrt_pairs chisqprob [50] [45] [1] = [(10, chisqprob 10 1)] := by
      norm_num [lrt_pairs]
    simp [likelihood_ratio_test, this]

/-- Witness for C4 at the concrete pair from the spec (`nll_null=50`,
`nll_alt=45`, `df=1`) and the zero chi-squared oracle. -/
theorem likelihood_ratio_test_spec_witness :
    likelihood_ratio_test (fun _ _ => 0) [50] [45] [1] =
      Except.ok [(10, 0)] :=
  (likelihood_ratio_test_spec (fun _ _ => 0) [50] [45] [1] rfl rfl).2.2.2.2

/-- Claim C9: the validity assert of `nll` is true for every input (its
right operands are nonempty string literals), so an unrecognized
distribution name is never rejected by the assert; instead the dispatch
chain leaves `pmf` unassigned and the call fails with an unbound-local
error, for every PMF/log oracle and every outcome of the identity test. -/
theorem nll_assert_never_rejects (O : NllOracles) (isMete : Bool)
    (distribution : String)
    (h : distribution ∉ (["mete", "mete_approx", "neg_binom",
      "trun_plognorm", "plognorm", "lgsr"] : List String)) :
    (∀ b : Bool, nll_assert_cond b = true) ∧
    nll O isMete distribution = Except.error PyErr.unboundLocal := by
  constructor
  · intro b
    cases b <;> rfl
  · simp only [List.mem_cons, not_or] at h
    obtain ⟨h1, h2, h3, h4, h5, h6, -⟩ := h
    have c1 : (distribution == "mete") = false := beq_eq_false_iff_ne.mpr h1
    have c2 : (distribution == "mete_approx") = false :=
      beq_eq_false_iff_ne.mpr h2
    have c3 : (distribution == "neg_binom") = false :=
      beq_eq_false_iff_ne.mpr h3
    have c4 : (distribution == "trun_plognorm") = false :=
      beq_eq_false_iff_ne.mpr h4
    have c5 : (distribution == "plognorm") = false :=
      beq_eq_false_iff_ne.mpr h5
    have c6 : (distribution == "lgsr") = false := beq_eq_false_iff_ne.mpr h6
    have hb : ∀ b : Bool, nll_assert_cond b = true := fun b => by
      cases b <;> rfl
    simp [nll, hb, c1, c2, c3, c4, c5, c6]

/-- Witness for C9 at the unrecognized name `"gamma"`. -/
theorem nll_assert_never_rejects_witness :
    nll_assert_cond true = true ∧
    nll ⟨[], [], [], [], [], [], fun q => q⟩ false "gamma" =
      Except.error PyErr.unboundLocal :=
  ⟨(nll_assert_never_rejects ⟨[], [], [], [], [], [], fun q => q⟩ false
      "gamma" (by decide)).1 true,
   (nll_assert_never_rejects ⟨[], [], [], [], [], [], fun q => q⟩ false
      "gamma" (by decide)).2⟩

lemma npMax_replicate_succ (n : ℕ) (c : ℚ) :
    npMax (List.replicate (n + 1) c) = c := by
  induction n with
  | zero => rfl
  | succ m ih =>
    have : List.replicate (m + 1 + 1) c = c :: List.replicate (m + 1) c :=
      rfl
    simp only [npMax, List.replicate, List.foldl] at ih ⊢
    simpa [max_self] using ih

lemma mete_scan_values_length : mete_scan_values.length = 1000 := by
  unfold mete_scan_values np_linspace
  rw [List.length_map, List.length_range]

lemma mete_scan_ymax_const (c : ℚ) : mete_scan_ymax (fun _ => c) = c := by
  unfold mete_scan_ymax mete_scan_solns
  rw [List.map_const', mete_scan_values_length]
  exact npMax_replicate_succ 999 c

/-- Claim C10: when the initial bracketed root-find of
`mete_lgsr_approx_pmf` raises and the fallback grid scan's maximum is
exactly zero, neither the two-root branch (`ymax > 0`) nor the
`RootError` branch (`ymax < 0`) executes, so `x` is never assigned and
the function fails with an unbound-local error (not the typed
`RootError`), whatever the root selector. -/
theorem mete_lgsr_approx_ymax_zero_unbound (eqO : ℚ → ℚ) (root : ℤ)
    (h : mete_scan_ymax eqO = 0) :
    mete_lgsr_approx_solve none eqO root = Except.error PyErr.unboundLocal := by
  simp [mete_lgsr_approx_solve, h]

/-- Witness for C10: the constant-zero equation oracle has scan maximum
exactly 0, and the solve phase then fails with the unbound-local error. -/
theorem mete_lgsr_approx_ymax_zero_unbound_witness :
    mete_scan_ymax (fun _ => 0) = 0 ∧
    mete_lgsr_approx_solve none (fun _ => 0) 2 =
      Except.error PyErr.unboundLocal :=
  ⟨mete_scan_ymax_const 0,
   mete_lgsr_approx_ymax_zero_unbound (fun _ => 0) 2 (mete_scan_ymax_const 0)⟩

/-- Counterexample to claim C1 as stated: with the initial root-find
failing and a scan maximum that is positive (two roots), a call that does
NOT explicitly disambiguate — i.e. uses the signature default
`root = 2` — does not fail: it silently proceeds with the upper root.  So
the function does not require caller disambiguation. -/
theorem mete_lgsr_approx_silent_default_root :
    mete_lgsr_approx_solve none (fun _ => 1) mete_root_default =
      Except.ok (RootChoice.upper (mete_scan_xmax (fun _ => 1))) := by
  have hy : mete_scan_ymax (fun _ => 1) = 1 := mete_scan_ymax_const 1
  simp [mete_lgsr_approx_solve, hy, mete_root_default]

/-- Claim C1 (amended): when the bracketed root-find fails and the
fallback scan finds a positive maximum, the function selects the root
according to the `root` selector — `root = 1` re-brackets below the
located maximum (lower root), `root = 2` above it (upper root), any other
selector value leaves the root unassigned (unbound-local failure) — and
the selector defaults to 2, so a call without an explicit choice proceeds
with the upper root (after printing a warning) instead of raising an
ambiguity error. -/
theorem mete_lgsr_approx_root_selection (eqO : ℚ → ℚ) (root : ℤ)
    (h : 0 < mete_scan_ymax eqO) :
    mete_root_default = 2 ∧
    mete_lgsr_approx_solve none eqO root =
      (if root = 1 then Except.ok (RootChoice.lower (mete_scan_xmax eqO))
       else if root = 2 then Except.ok (RootChoice.upper (mete_scan_xmax eqO))
       else Except.error PyErr.unboundLocal) := by
  refine ⟨rfl, ?_⟩
  have h' : ¬ mete_scan_ymax eqO < 0 := not_lt.mpr h.le
  simp only [mete_lgsr_approx_solve, h, if_true, h', if_false]
  split_ifs <;> rfl

/-- Witness for C1 (amended) at the constant-one equation oracle (scan
maximum 1 > 0) and the explicit lower-root selector. -/
theorem mete_lgsr_approx_root_selection_witness :
    mete_lgsr_approx_solve none (fun _ => 1) 1 =
      Except.ok (RootChoice.lower (mete_scan_xmax (fun _ => 1))) := by
  have h : (0 : ℚ) < mete_scan_ymax (fun _ => 1) := by
    rw [mete_scan_ymax_const]; norm_num
  have := (mete_lgsr_approx_root_selection (fun _ => 1) 1 h).2
  simpa using this

lemma mem_np_unique {l : List ℚ} {a : ℚ} : a ∈ np_unique l ↔ a ∈ l := by
  unfold np_unique
  rw [(List.perm_insertionSort _ _).mem_iff, List.mem_dedup]

lemma np_unique_sorted (l : List ℚ) :
    (np_unique l).Sorted (fun a b => a < b) := by
  have hs : (np_unique l).Sorted (fun a b => a ≤ b) :=
    List.sorted_insertionSort _ _
  have hnd : (np_unique l).Nodup :=
    ((List.perm_insertionSort _ _).nodup_iff).mpr l.nodup_dedup
  exact (hs.and hnd).imp (fun h => lt_of_le_of_ne h.1 h.2)

lemma length_filter_not_mem_cons (emp : List ℚ) (v : ℚ) (rest : List ℚ)
    (hv : v ∉ rest) :
    (emp.filter (fun e => decide (e ∉ rest))).length =
      (emp.filter (fun e => decide (e ∉ v :: rest))).length +
      (emp.filter (fun e => decide (e = v))).length := by
  induction emp with
  | nil => simp
  | cons a t ih =>
    simp only [List.filter_cons]
    by_cases hav : a = v
    · subst hav
      rw [if_pos (by simpa using hv), if_neg (by simp [List.mem_cons]),
        if_pos (by simp)]
      simp only [List.length_cons]
      omega
    · by_cases har : a ∈ rest
      · rw [if_neg (by simpa using har),
          if_neg (by simp [List.mem_cons, har]), if_neg (by simpa using hav)]
        exact ih
      · rw [if_pos (by simpa using har),
          if_pos (by simp [List.mem_cons, hav, har]),
          if_neg (by simpa using hav)]
        simp only [List.length_cons]
        omega

lemma ecdf_loop_spec (emp : List ℚ) (vs : List ℚ) :
    ∀ (count : ℕ) (cdf : List ℚ),
      cdf.length = emp.length →
      vs.Sorted (fun a b => a < b) →
      (∀ e ∈ emp, e ∈ vs ∨ ∀ u ∈ vs, e < u) →
      count = (emp.filter (fun e => decide (e ∉ vs))).length →
      (ecdf_loop emp emp.length vs count cdf).length = emp.length ∧
      ∀ j, (hj : j < emp.length) →
        (ecdf_loop emp emp.length vs count cdf)[j]? =
          if emp[j] ∈ vs then
            some (((emp.filter (fun e => decide (e ≤ emp[j]))).length : ℚ) /
              (emp.length : ℚ))
          else cdf[j]? := by
  induction vs with
  | nil =>
    intro count cdf hlen _ _ _
    exact ⟨hlen, fun j hj => by simp [ecdf_loop]⟩
  | cons v rest ih =>
    intro count cdf hlen hsort hlow hcount
    have hvr : ∀ u ∈ rest, v < u := (List.sorted_cons.mp hsort).1
    have hsort' : rest.Sorted (fun a b => a < b) :=
      (List.sorted_cons.mp hsort).2
    have hvnr : v ∉ rest := fun hm => lt_irrefl v (hvr v hm)
    have hstep : ecdf_loop emp emp.length (v :: rest) count cdf =
        ecdf_loop emp emp.length rest
          (count + (emp.filter (fun e => decide (e = v))).length)
          (List.zipWith (fun e old => if e = v then
              ((count + (emp.filter (fun e => decide (e = v))).length : ℕ) : ℚ) /
              (emp.length : ℚ)
            else old) emp cdf) := rfl
    have hlen2 : (List.zipWith (fun e old => if e = v then
        ((count + (emp.filter (fun e => decide (e = v))).length : ℕ) : ℚ) /
        (emp.length : ℚ) else old) emp cdf).length = emp.length := by
      rw [List.length_zipWith, hlen, Nat.min_self]
    have hlow2 : ∀ e ∈ emp, e ∈ rest ∨ ∀ u ∈ rest, e < u := by
      intro e he
      rcases hlow e he with hmem | hlt
      · rcases List.mem_cons.mp hmem with rfl | hm
        · exact Or.inr hvr
        · exact Or.inl hm
      · exact Or.inr (fun u hu => hlt u (List.mem_cons_of_mem v hu))
    have hcount2 : count + (emp.filter (fun e => decide (e = v))).length =
        (emp.filter (fun e => decide (e ∉ rest))).length := by
      rw [hcount, ← length_filter_not_mem_cons emp v rest hvnr]
    -- the elements ≤ v are exactly those already processed after this step
    have hle_v : (emp.filter (fun e => decide (e ∉ rest))).length =
        (emp.filter (fun e => decide (e ≤ v))).length := by
      congr 1
      apply List.filter_congr
      intro e he
      rcases hlow e he with hmem | hlt
      · rcases List.mem_cons.mp hmem with rfl | hm
        · simp [hvnr, le_refl]
        · simp [hm, not_le.mpr (hvr e hm)]
      · have hev : e < v := hlt v (List.mem_cons_self v rest)
        have her : e ∉ rest := fun hm =>
          lt_irrefl e (hlt e (List.mem_cons_of_mem v hm))
        simp [her, le_of_lt hev]
    obtain ⟨ihlen, ihget⟩ := ih _ _ hlen2 hsort' hlow2 hcount2
    refine ⟨by rw [hstep]; exact ihlen, fun j hj => ?_⟩
    rw [hstep, ihget j hj]
    by_cases hjr : emp[j] ∈ rest
    · simp only [hjr, if_true, List.mem_cons.mpr (Or.inr hjr), if_true]
    · have hj2 : j < (List.zipWith (fun e old => if e = v then
          ((count + (emp.filter (fun e => decide (e = v))).length : ℕ) : ℚ) /
          (emp.length : ℚ) else old) emp cdf).length := by
        rw [hlen2]; exact hj
      rw [if_neg hjr, List.getElem?_eq_getElem hj2, List.getElem_zipWith]
      by_cases hjv : emp[j] = v
      · rw [if_pos hjv, if_pos (List.mem_cons.mpr (Or.inl hjv))]
        rw [hjv, hcount2, hle_v]
      · rw [if_neg hjv, if_neg (by simp [List.mem_cons, hjv, hjr]),
          List.getElem?_eq_getElem (show j < cdf.length by rw [hlen]; exact hj)]

/-- Claim C5: `empirical_cdf` returns one value per input position; the
value at position `j` is the number of observations `≤` the value at
position `j`, divided by the total number of observations; tied positions
therefore receive the same CDF value. -/
theorem empirical_cdf_spec (emp_data : List ℚ) (hne : emp_data ≠ []) :
    (empirical_cdf emp_data).length = emp_data.length ∧
    (∀ j, (hj : j < emp_data.length) →
      (empirical_cdf emp_data)[j]? =
        some (((emp_data.filter
            (fun e => decide (e ≤ emp_data[j]))).length : ℚ) /
          (emp_data.length : ℚ))) ∧
    (∀ i j, (hi : i < emp_data.length) → (hj : j < emp_data.length) →
      emp_data[i] = emp_data[j] →
      (empirical_cdf emp_data)[i]? = (empirical_cdf emp_data)[j]?) := by
  have hmem : ∀ e ∈ emp_data, e ∈ np_unique emp_data ∨
      ∀ u ∈ np_unique emp_data, e < u :=
    fun e he => Or.inl (mem_np_unique.mpr he)
  have hcnt : 0 = (emp_data.filter
      (fun e => decide (e ∉ np_unique emp_data))).length := by
    rw [List.filter_eq_nil_iff.mpr
      (fun a ha => by simp [mem_np_unique.mpr ha])]
    rfl
  obtain ⟨hl, hg⟩ := ecdf_loop_spec emp_data (np_unique emp_data) 0
    (List.replicate emp_data.length 0) (List.length_replicate _ _)
    (np_unique_sorted emp_data) hmem hcnt
  have hval : ∀ j, (hj : j < emp_data.length) →
      (empirical_cdf emp_data)[j]? =
        some (((emp_data.filter
            (fun e => decide (e ≤ emp_data[j]))).length : ℚ) /
          (emp_data.length : ℚ)) := by
    intro j hj
    have := hg j hj
    rwa [if_pos (mem_np_unique.mpr (emp_data.getElem_mem hj))] at this
  refine ⟨hl, hval, fun i j hi hj hij => ?_⟩
  rw [hval i hi, hval j hj, hij]

/-- Witness for C5 at `[1, 1, 2]`: position 0 holds value 1, and two of
the three observations are `≤ 1`. -/
theorem empirical_cdf_spec_witness :
    (empirical_cdf [1, 1, 2]).length = ([1, 1, 2] : List ℚ).length ∧
    (empirical_cdf [1, 1, 2])[0]? =
      some (((([1, 1, 2] : List ℚ).filter
          (fun e => decide (e ≤ ([1, 1, 2] : List ℚ)[0]))).length : ℚ) /
        ((([1, 1, 2] : List ℚ).length : ℕ) : ℚ)) :=
  ⟨(empirical_cdf_spec [1, 1, 2] (by decide)).1,
   (empirical_cdf_spec [1, 1, 2] (by decide)).2.1 0 (by decide)⟩

lemma scanl_add_le (l : List ℚ) :
    ∀ (a : ℚ), (∀ x ∈ l, 0 ≤ x) →
      ∀ b ∈ l.scanl (fun u w => u + w) a, a ≤ b := by
  induction l with
  | nil =>
    intro a _ b hb
    rw [List.scanl_nil, List.mem_singleton] at hb
    exact hb ▸ le_refl a
  | cons x t ih =>
    intro a hnn b hb
    rw [List.scanl_cons, List.singleton_append, List.mem_cons] at hb
    rcases hb with rfl | hb'
    · exact le_refl b
    · have hx : 0 ≤ x := hnn x (List.mem_cons_self _ _)
      have := ih (a + x) (fun y hy => hnn y (List.mem_cons_of_mem _ hy)) b hb'
      linarith

lemma scanl_add_sorted (l : List ℚ) :
    ∀ (a : ℚ), (∀ x ∈ l, 0 ≤ x) →
      (l.scanl (fun u w => u + w) a).Sorted (fun p q => p ≤ q) := by
  induction l with
  | nil => intro a _; simp [List.scanl_nil]
  | cons x t ih =>
    intro a hnn
    rw [List.scanl_cons, List.singleton_append]
    refine List.sorted_cons.mpr
      ⟨fun b hb => ?_, ih (a + x) (fun y hy => hnn y (List.mem_cons_of_mem _ hy))⟩
    have hx : 0 ≤ x := hnn x (List.mem_cons_self _ _)
    have := scanl_add_le t (a + x)
      (fun y hy => hnn y (List.mem_cons_of_mem _ hy)) b hb
    linarith

lemma np_cumsum_sorted (l : List ℚ) (h : ∀ x ∈ l, 0 ≤ x) :
    (np_cumsum l).Sorted (fun p q => p ≤ q) := by
  unfold np_cumsum
  exact (scanl_add_sorted l 0 h).sublist (List.drop_sublist 1 _)

lemma rank_loop_spec (S_points : List ℚ) (cuts : List ℚ) :
    ∀ (abunds : List ℚ), abunds.length = S_points.length →
      cuts.Sorted (fun p q => p ≤ q) →
      (rank_loop S_points cuts abunds).length = S_points.length ∧
      ∀ j, (hj : j < S_points.length) → (hj2 : j < abunds.length) →
        (rank_loop S_points cuts abunds)[j]? =
          some (abunds[j] +
            ((cuts.filter (fun c => decide (c ≤ S_points[j]))).length : ℚ)) := by
  induction cuts with
  | nil =>
    intro abunds hlen _
    refine ⟨hlen, fun j hj hj2 => ?_⟩
    rw [show rank_loop S_points [] abunds = abunds from rfl,
      List.getElem?_eq_getElem hj2]
    simp
  | cons cutoff rest ih =>
    intro abunds hlen hsort
    have hsort' : rest.Sorted (fun p q => p ≤ q) := (List.sorted_cons.mp hsort).2
    have hcr : ∀ c ∈ rest, cutoff ≤ c := (List.sorted_cons.mp hsort).1
    have hab2len : (List.zipWith (fun g a => if g then a + 1 else a)
        (S_points.map (fun p => decide (cutoff ≤ p))) abunds).length =
        S_points.length := by
      rw [List.length_zipWith, List.length_map, hlen, Nat.min_self]
    have hab2get : ∀ j, (hj : j < S_points.length) → (hj2 : j < abunds.length) →
        (List.zipWith (fun g a => if g then a + 1 else a)
          (S_points.map (fun p => decide (cutoff ≤ p))) abunds)[j]? =
        some (if cutoff ≤ S_points[j] then abunds[j] + 1 else abunds[j]) := by
      intro j hj hj2
      rw [List.getElem?_eq_getElem (show j < _ by rw [hab2len]; exact hj),
        List.getElem_zipWith, List.getElem_map]
      simp only [decide_eq_true_eq]
    have hstep : rank_loop S_points (cutoff :: rest) abunds =
        if (S_points.map (fun p => decide (cutoff ≤ p))).any (fun b => b) = false
        then List.zipWith (fun g a => if g then a + 1 else a)
          (S_points.map (fun p => decide (cutoff ≤ p))) abunds
        else rank_loop S_points rest
          (List.zipWith (fun g a => if g then a + 1 else a)
            (S_points.map (fun p => decide (cutoff ≤ p))) abunds) := rfl
    by_cases hany : (S_points.map (fun p => decide (cutoff ≤ p))).any
        (fun b => b) = false
    · -- break: no point is ≥ the cutoff, and by monotonicity none is ≥ any
      -- later cutoff either
      have hnone : ∀ p ∈ S_points, ¬ cutoff ≤ p := by
        intro p hp hcp
        have := List.any_eq_false.mp hany (decide (cutoff ≤ p))
          (List.mem_map_of_mem _ hp)
        simp [hcp] at this
      refine ⟨by rw [hstep, if_pos hany]; exact hab2len, fun j hj hj2 => ?_⟩
      rw [hstep, if_pos hany, hab2get j hj hj2,
        if_neg (hnone _ (S_points.getElem_mem hj))]
      have hfilter : (cutoff :: rest).filter
          (fun c => decide (c ≤ S_points[j])) = [] := by
        apply List.filter_eq_nil_iff.mpr
        intro c hc
        rcases List.mem_cons.mp hc with rfl | hc'
        · simpa using hnone _ (S_points.getElem_mem hj)
        · simp only [decide_eq_true_eq]
          intro hcj
          exact hnone _ (S_points.getElem_mem hj) (le_trans (hcr c hc') hcj)
      rw [hfilter]
      simp
    · obtain ⟨ihlen, ihget⟩ := ih _ hab2len hsort'
      refine ⟨by rw [hstep, if_neg hany]; exact ihlen, fun j hj hj2 => ?_⟩
      rw [hstep, if_neg hany, ihget j hj (by rw [hab2len]; exact hj)]
      have hab2j : (List.zipWith (fun g a => if g then a + 1 else a)
          (S_points.map (fun p => decide (cutoff ≤ p))) abunds)[j] =
          if cutoff ≤ S_points[j] then abunds[j] + 1 else abunds[j] := by
        have := hab2get j hj hj2
        rwa [List.getElem?_eq_getElem (show j < _ by rw [hab2len]; exact hj),
          Option.some_inj] at this
      rw [hab2j]
      by_cases hcj : cutoff ≤ S_points[j]
      · rw [if_pos hcj, List.filter_cons_of_pos (by simpa using hcj),
          List.length_cons]
        push_cast
        ring_nf
      · rw [if_neg hcj, List.filter_cons_of_neg (by simpa using hcj)]

lemma np_arange_length_S (S : ℕ) (hS : 0 < S) :
    (np_arange (1 / (2 * (S : ℚ))) (1 + 1 / (2 * (S : ℚ)))
      (1 / (S : ℚ))).length = S := by
  unfold np_arange
  rw [List.length_map, List.length_range]
  have hS0 : ((S : ℚ)) ≠ 0 := Nat.cast_ne_zero.mpr hS.ne'
  have hq : (1 + 1 / (2 * (S : ℚ)) - 1 / (2 * (S : ℚ))) / (1 / (S : ℚ)) =
      (S : ℚ) := by
    field_simp
  rw [hq, Int.ceil_natCast, Int.toNat_natCast]

lemma np_arange_getElem (start stop step : ℚ) (i : ℕ)
    (h : i < (np_arange start stop step).length) :
    (np_arange start stop step)[i] = start + (i : ℚ) * step := by
  unfold np_arange at h ⊢
  rw [List.getElem_map, List.getElem_range]

/-- Claim C8: `make_rank_abund(sad_pmf, S)` returns exactly `S` abundance
values; the `i`-th value (0-based `i`, quantile `(i + 1/2)/S`, i.e.
`(i₁ - 0.5)/S` for the 1-based rank `i₁`) is the number of cumulative-pmf
cutoffs — including the leading zero of the 0-prepended pmf — that do not
exceed that quantile.  Nonnegative pmf entries make the cumulative cutoffs
monotone, so the loop's early break drops no qualifying cutoff. -/
theorem make_rank_abund_quantile_inversion (sad_pmf : List ℚ) (S : ℕ)
    (hS : 0 < S) (hp : ∀ p ∈ sad_pmf, 0 ≤ p) :
    (make_rank_abund sad_pmf S).length = S ∧
    ∀ i, (hi : i < S) →
      (make_rank_abund sad_pmf S)[i]? =
        some ((((np_cumsum ((0 : ℚ) :: sad_pmf)).filter
          (fun c => decide (c ≤ ((i : ℚ) + 1 / 2) / (S : ℚ)))).length : ℚ)) := by
  have hS0 : ((S : ℚ)) ≠ 0 := Nat.cast_ne_zero.mpr hS.ne'
  have hlenpts := np_arange_length_S S hS
  have hcsorted : (np_cumsum ((0 : ℚ) :: sad_pmf)).Sorted (fun p q => p ≤ q) := by
    apply np_cumsum_sorted
    intro x hx
    rcases List.mem_cons.mp hx with rfl | hx'
    · exact le_refl 0
    · exact hp x hx'
  obtain ⟨hl, hg⟩ := rank_loop_spec
    (np_arange (1 / (2 * (S : ℚ))) (1 + 1 / (2 * (S : ℚ))) (1 / (S : ℚ)))
    (np_cumsum ((0 : ℚ) :: sad_pmf))
    (List.replicate (np_arange (1 / (2 * (S : ℚ))) (1 + 1 / (2 * (S : ℚ)))
      (1 / (S : ℚ))).length 0)
    (List.length_replicate _ _) hcsorted
  have hunfold : make_rank_abund sad_pmf S = rank_loop
      (np_arange (1 / (2 * (S : ℚ))) (1 + 1 / (2 * (S : ℚ))) (1 / (S : ℚ)))
      (np_cumsum ((0 : ℚ) :: sad_pmf))
      (List.replicate (np_arange (1 / (2 * (S : ℚ))) (1 + 1 / (2 * (S : ℚ)))
        (1 / (S : ℚ))).length 0) := rfl
  constructor
  · rw [hunfold, hl, hlenpts]
  · intro i hi
    have hi' : i < (np_arange (1 / (2 * (S : ℚ))) (1 + 1 / (2 * (S : ℚ)))
        (1 / (S : ℚ))).length := by rw [hlenpts]; exact hi
    have hpoint : (np_arange (1 / (2 * (S : ℚ))) (1 + 1 / (2 * (S : ℚ)))
        (1 / (S : ℚ)))[i] = ((i : ℚ) + 1 / 2) / (S : ℚ) := by
      rw [np_arange_getElem]
      field_simp
      ring
    rw [hunfold, hg i hi' (by rw [List.length_replicate]; exact hi'), hpoint,
      List.getElem_replicate, zero_add]

/-- Witness for C8 at `sad_pmf = [1/2]`, `S = 1`. -/
theorem make_rank_abund_quantile_inversion_witness :
    (make_rank_abund [1 / 2] 1).length = 1 ∧
    (make_rank_abund [1 / 2] 1)[0]? =
      some ((((np_cumsum ((0 : ℚ) :: [1 / 2])).filter
        (fun c => decide (c ≤ (((0 : ℕ) : ℚ) + 1 / 2) / ((1 : ℕ) : ℚ)))).length
          : ℚ)) :=
  ⟨(make_rank_abund_quantile_inversion [1 / 2] 1 (by norm_num)
      (fun p hp => by rw [List.mem_singleton] at hp; rw [hp]; norm_num)).1,
   (make_rank_abund_quantile_inversion [1 / 2] 1 (by norm_num)
      (fun p hp => by rw [List.mem_singleton] at hp; rw [hp]; norm_num)).2
      0 (by norm_num)⟩
